import Mathlib

/-!
# Verification of the Heidi voicemail-triage core

Shallow embedding of the deterministic text-analysis and decision pipeline:

* `backend/app/utils/pii_filter.py` — the PII detection/redaction engine
  (`PIIRedactionFilter.detect_pii`, `_deduplicate_matches`, the per-kind
  redaction helpers and `redact`),
* `backend/app/services/smart_routing.py` — Medicare extraction, location and
  doctor mentions, the four-tier routing cascade and patient matching,
* `backend/app/services/emergency_escalation.py` — `should_escalate` and the
  `process_escalation` state machine (its log kept as explicit state),
* `backend/app/services/triage_service.py` — the escalation stage of the
  pipeline, phone extraction and display masking, and the classifier-response
  parsing (`_parse_triage_response`).

Text is modelled as `List Char` and character offsets as `Nat`, matching
Python's character-indexed strings.  The Python `re` patterns are embedded via
a small backtracking matching engine (`RE`, `run`): alternation tries the left
branch first, repetition is greedy, `run` returns the backtracking
possibilities in priority order and the engine keeps the first, exactly as the
leftmost-first semantics of `re.finditer` / `re.search`.  Unbounded `+` / `*`
repetitions are embedded as repetitions bounded by the length of the scanned
text, which no match can exceed.
-/

namespace Heidi

/-- Convenience: a Python `str` as a list of characters. -/
def str (s : String) : List Char := s.toList

/-- Python `\s` for the ASCII whitespace the transcripts use. -/
def isSpaceP (c : Char) : Bool :=
  c = ' ' || c = '\t' || c = '\n' || c = '\r' || c = '\x0b' || c = '\x0c'

/-- Python `\w` (word character) restricted to ASCII. -/
def isWordChar (c : Char) : Bool :=
  c.isAlpha || c.isDigit || c = '_'

/-- Word-ness of an optional character; positions before the start and after
the end of the text count as non-word, as in Python. -/
def wordOpt : Option Char → Bool
  | none => false
  | some c => isWordChar c

/-- Lower-case a text, as Python `str.lower` does for the ASCII subset. -/
def toLowerL (l : List Char) : List Char := l.map Char.toLower

/-- Embedded regular expressions.  `chr f` consumes one character satisfying
`f`; `dig f` consumes one character that is a digit and satisfies `f` (so that
digit lower bounds of a pattern are computable); `bnd f` is a zero-width
assertion on the previous and next character (used for `\b`). -/
inductive RE : Type where
  | eps : RE
  | chr (f : Char → Bool) : RE
  | dig (f : Char → Bool) : RE
  | bnd (f : Option Char → Option Char → Bool) : RE
  | seq (a b : RE) : RE
  | alt (a b : RE) : RE

/-- One backtracking possibility: the characters consumed, the new previous
character (for later boundary assertions) and the remaining text. -/
structure MRes where
  pre : List Char
  prev : Option Char
  rest : List Char
deriving DecidableEq, Repr

/-- All ways the pattern can match a prefix of `s` (with `p` the character
just before `s`), in backtracking priority order: the first element is the
match Python's engine would produce at this position. -/
def run : RE → Option Char → List Char → List MRes
  | .eps, p, s => [⟨[], p, s⟩]
  | .chr f, _, c :: s => if f c then [⟨[c], some c, s⟩] else []
  | .chr _, _, [] => []
  | .dig f, _, c :: s => if c.isDigit && f c then [⟨[c], some c, s⟩] else []
  | .dig _, _, [] => []
  | .bnd f, p, s => if f p s.head? then [⟨[], p, s⟩] else []
  | .seq a b, p, s =>
      (run a p s).flatMap fun r1 =>
        (run b r1.prev r1.rest).map fun r2 => ⟨r1.pre ++ r2.pre, r2.prev, r2.rest⟩
  | .alt a b, p, s => run a p s ++ run b p s

/-- `a?` (greedy). -/
def reOpt (a : RE) : RE := .alt a .eps

/-- Exactly `n` copies of `a`. -/
def reRepExact (a : RE) : Nat → RE
  | 0 => .eps
  | n + 1 => .seq a (reRepExact a n)

/-- At most `n` copies of `a`, greedy (more copies tried first). -/
def reUpto (a : RE) : Nat → RE
  | 0 => .eps
  | n + 1 => .alt (.seq a (reUpto a n)) .eps

/-- `a{lo,hi}`, greedy. -/
def reRep (a : RE) (lo hi : Nat) : RE := .seq (reRepExact a lo) (reUpto a (hi - lo))

/-- A literal character (case-sensitive). -/
def lit (c : Char) : RE := .chr (fun d => d = c)

/-- A literal character matched case-insensitively (`re.IGNORECASE`). -/
def litCI (c : Char) : RE := .chr (fun d => d.toLower = c.toLower)

/-- A literal word, case-sensitive. -/
def word (s : String) : RE := (s.toList.map lit).foldr .seq .eps

/-- A literal word under `re.IGNORECASE`. -/
def wordCI (s : String) : RE := (s.toList.map litCI).foldr .seq .eps

/-- Chain a list of expressions in sequence. -/
def seqL (l : List RE) : RE := l.foldr .seq .eps

/-- Leftmost-first alternation of a list of expressions. -/
def altL : List RE → RE
  | [] => .eps
  | [a] => a
  | a :: rest => .alt a (altL rest)

/-- `\b`: a word boundary between the previous and the next character. -/
def reB : RE := .bnd (fun p n => wordOpt p != wordOpt n)

/-- `\d`. -/
def reD : RE := .dig (fun _ => true)

/-- `\s`. -/
def reS : RE := .chr isSpaceP

/-- `\s+`, bounded by the scanned text's length `n`. -/
def reS1 (n : Nat) : RE := reRep reS 1 n

/-- Whether some single-character atom of the pattern accepts `c`; every
character consumed by a successful `run` satisfies this. -/
def acceptsChar : RE → Char → Bool
  | .eps, _ => false
  | .chr f, c => f c
  | .dig f, c => c.isDigit && f c
  | .bnd _, _ => false
  | .seq a b, c => acceptsChar a c || acceptsChar b c
  | .alt a b, c => acceptsChar a c || acceptsChar b c

/-- Lower bound on the number of `dig` characters any match must consume. -/
def reMinDigits : RE → Nat
  | .eps => 0
  | .chr _ => 0
  | .dig _ => 1
  | .bnd _ => 0
  | .seq a b => reMinDigits a + reMinDigits b
  | .alt a b => min (reMinDigits a) (reMinDigits b)

/-- Lower bound on the number of characters any match must consume. -/
def reMinConsumed : RE → Nat
  | .eps => 0
  | .chr _ => 1
  | .dig _ => 1
  | .bnd _ => 0
  | .seq a b => reMinConsumed a + reMinConsumed b
  | .alt a b => min (reMinConsumed a) (reMinConsumed b)

theorem run_spec {re : RE} {p : Option Char} {s : List Char} {r : MRes}
    (h : r ∈ run re p s) :
    s = r.pre ++ r.rest ∧
    (∀ c ∈ r.pre, acceptsChar re c = true) ∧
    reMinDigits re ≤ (r.pre.filter Char.isDigit).length ∧
    reMinConsumed re ≤ r.pre.length := by
  induction re generalizing p s r with
  | eps =>
    simp only [run, List.mem_singleton] at h
    subst h
    simp [reMinDigits, reMinConsumed]
  | chr f =>
    match s with
    | [] => simp [run] at h
    | c :: s' =>
      simp only [run] at h
      split at h
      · simp only [List.mem_singleton] at h
        subst h
        simp_all [acceptsChar, reMinDigits, reMinConsumed]
      · simp at h
  | dig f =>
    match s with
    | [] => simp [run] at h
    | c :: s' =>
      simp only [run] at h
      split at h
      · simp only [List.mem_singleton] at h
        subst h
        simp_all [acceptsChar, reMinDigits, reMinConsumed]
      · simp at h
  | bnd f =>
    simp only [run] at h
    split at h
    · simp only [List.mem_singleton] at h
      subst h
      simp [reMinDigits, reMinConsumed]
    · simp at h
  | seq a b iha ihb =>
    simp only [run, List.mem_flatMap, List.mem_map] at h
    obtain ⟨r1, hr1, r2, hr2, hr⟩ := h
    obtain ⟨e1, acc1, d1, c1⟩ := iha hr1
    obtain ⟨e2, acc2, d2, c2⟩ := ihb hr2
    subst hr
    refine ⟨by simp [e1, e2], ?_, ?_, ?_⟩
    · intro c hc
      simp only [List.mem_append] at hc
      rcases hc with hc | hc
      · simp [acceptsChar, acc1 c hc]
      · simp [acceptsChar, acc2 c hc]
    · simp only [reMinDigits, List.filter_append, List.length_append]
      omega
    · simp only [reMinConsumed, List.length_append]
      omega
  | alt a b iha ihb =>
    simp only [run, List.mem_append] at h
    rcases h with h | h
    · obtain ⟨e, acc, d, c⟩ := iha h
      exact ⟨e, fun x hx => by simp [acceptsChar, acc x hx],
        le_trans (by simp [reMinDigits]) d, le_trans (by simp [reMinConsumed]) c⟩
    · obtain ⟨e, acc, d, c⟩ := ihb h
      exact ⟨e, fun x hx => by simp [acceptsChar, acc x hx],
        le_trans (by simp [reMinDigits, min_le_right]) d,
        le_trans (by simp [reMinConsumed, min_le_right]) c⟩

theorem run_rest_length {re : RE} {p : Option Char} {s : List Char} {r : MRes}
    (h : r ∈ run re p s) : r.rest.length + r.pre.length = s.length := by
  have := (run_spec h).1
  rw [this]
  simp [Nat.add_comm]

theorem mem_of_head?_eq {l : List α} {x : α} (h : l.head? = some x) : x ∈ l := by
  cases l with
  | nil => simp at h
  | cons y ys =>
    simp only [List.head?] at h
    injection h with h
    rw [h]
    exact List.mem_cons_self x ys

/-- Fuelled `re.finditer` loop: scan the text left to right; at each position
take the engine's first match, emit its start offset and matched characters,
and resume after the match (one position further for a zero-width match, as
Python does).  `i` is the offset of `s` in the full text and `p` the
character before it.  Each step shortens `s`, so the fuel `findIter` supplies
is never exhausted. -/
def findIterF (re : RE) : Nat → Nat → Option Char → List Char → List (Nat × List Char)
  | 0, _, _, _ => []
  | _ + 1, _, _, [] => []
  | fuel + 1, i, p, c :: s =>
    match (run re p (c :: s)).head? with
    | some r =>
      if r.pre.length = 0 then
        (i, r.pre) :: findIterF re fuel (i + 1) (some c) s
      else
        (i, r.pre) :: findIterF re fuel (i + r.pre.length) r.prev r.rest
    | none => findIterF re fuel (i + 1) (some c) s

/-- `re.finditer` over a suffix `s` of the text starting at offset `i`. -/
def findIter (re : RE) (i : Nat) (p : Option Char) (s : List Char) :
    List (Nat × List Char) :=
  findIterF re (s.length + 1) i p s

theorem findIterF_spec (re : RE) (fuel : Nat) :
    ∀ s i p a pre, (a, pre) ∈ findIterF re fuel i p s →
    i ≤ a ∧ a + pre.length ≤ i + s.length ∧
    (∀ c ∈ pre, acceptsChar re c = true) ∧
    reMinDigits re ≤ (pre.filter Char.isDigit).length ∧
    reMinConsumed re ≤ pre.length := by
  induction fuel with
  | zero => intro s i p a pre hmem; simp [findIterF] at hmem
  | succ fuel ih =>
    intro s i p a pre hmem
    match s with
    | [] => simp [findIterF] at hmem
    | c :: s' =>
      rw [findIterF] at hmem
      rcases hh : (run re p (c :: s')).head? with _ | r
      · rw [hh] at hmem
        simp only at hmem
        obtain ⟨h1, h2, h3, h4, h5⟩ := ih s' (i + 1) (some c) a pre hmem
        exact ⟨by omega, by simp only [List.length_cons]; omega, h3, h4, h5⟩
      · rw [hh] at hmem
        have hr : r ∈ run re p (c :: s') := mem_of_head?_eq hh
        obtain ⟨heq, hacc, hdig, hcons⟩ := run_spec hr
        have hlen : r.rest.length + r.pre.length = (c :: s').length := run_rest_length hr
        simp only at hmem
        by_cases hp : r.pre.length = 0
        · rw [if_pos hp] at hmem
          rcases List.mem_cons.mp hmem with hhd | htl
          · have ha : a = i := congrArg Prod.fst hhd
            have hpre : pre = r.pre := congrArg Prod.snd hhd
            subst ha; subst hpre
            exact ⟨le_refl _, by simp [hp], hacc, hdig, hcons⟩
          · obtain ⟨h1, h2, h3, h4, h5⟩ := ih s' (i + 1) (some c) a pre htl
            exact ⟨by omega, by simp only [List.length_cons]; omega, h3, h4, h5⟩
        · rw [if_neg hp] at hmem
          rcases List.mem_cons.mp hmem with hhd | htl
          · have ha : a = i := congrArg Prod.fst hhd
            have hpre : pre = r.pre := congrArg Prod.snd hhd
            subst ha; subst hpre
            simp only [List.length_cons] at hlen
            exact ⟨le_refl _, by simp only [List.length_cons]; omega, hacc, hdig, hcons⟩
          · obtain ⟨h1, h2, h3, h4, h5⟩ :=
              ih r.rest (i + r.pre.length) r.prev a pre htl
            simp only [List.length_cons] at hlen
            exact ⟨by omega, by simp only [List.length_cons]; omega, h3, h4, h5⟩

/-- Every span `finditer` emits starts at or after the scan position, ends
within the text, consists of characters some atom of the pattern accepts, and
respects the pattern's digit and length lower bounds. -/
theorem findIter_spec {re : RE} {s : List Char} {i : Nat} {p : Option Char}
    {a : Nat} {pre : List Char} (hmem : (a, pre) ∈ findIter re i p s) :
    i ≤ a ∧ a + pre.length ≤ i + s.length ∧
    (∀ c ∈ pre, acceptsChar re c = true) ∧
    reMinDigits re ≤ (pre.filter Char.isDigit).length ∧
    reMinConsumed re ≤ pre.length :=
  findIterF_spec re (s.length + 1) s i p a pre hmem

/-!
## The patterns of `PIIRedactionFilter._compile_patterns`

Each definition is the direct translation of one compiled pattern.  Under
`re.IGNORECASE` a literal matches both cases and `[A-Z]`/`[a-z]` match any
ASCII letter, which `litCI`/`wordCI`/`alphaCI` reflect.
-/

/-- `[\s-]`. -/
def sepSD : RE := .chr (fun c => isSpaceP c || c = '-')

/-- `[-.\s]`. -/
def sepPDS : RE := .chr (fun c => c = '-' || c = '.' || isSpaceP c)

/-- A literal digit, tracked as a digit atom. -/
def dLit (c : Char) : RE := .dig (fun d => d = c)

/-- `medicare_pattern`: `\b(\d{4}[\s-]?\d{5}[\s-]?\d{1,2})\b`. -/
def medicare_pattern : RE :=
  seqL [reB, reRepExact reD 4, reOpt sepSD, reRepExact reD 5, reOpt sepSD,
    reRep reD 1 2, reB]

/-- `phone_pattern`:
`(?:\+?61[-.\s]?|0)(?:4\d{2}[-.\s]?\d{3}[-.\s]?\d{3}|[2-9]\d{1}[-.\s]?\d{4}[-.\s]?\d{4}|\(\d{2}\)[-.\s]?\d{4}[-.\s]?\d{4})`. -/
def phone_pattern : RE :=
  .seq
    (.alt (seqL [reOpt (lit '+'), dLit '6', dLit '1', reOpt sepPDS]) (dLit '0'))
    (altL [
      seqL [dLit '4', reRepExact reD 2, reOpt sepPDS, reRepExact reD 3,
        reOpt sepPDS, reRepExact reD 3],
      seqL [.dig (fun c => '2' ≤ c && c ≤ '9'), reRepExact reD 1, reOpt sepPDS,
        reRepExact reD 4, reOpt sepPDS, reRepExact reD 4],
      seqL [lit '(', reRepExact reD 2, lit ')', reOpt sepPDS, reRepExact reD 4,
        reOpt sepPDS, reRepExact reD 4]])

/-- `[A-Za-z0-9._%+-]` (the email local part). -/
def emailLocalCls : RE :=
  .chr (fun c => c.isAlpha || c.isDigit || c = '.' || c = '_' || c = '%' || c = '+' || c = '-')

/-- `[A-Za-z0-9.-]` (the email domain). -/
def emailDomainCls : RE := .chr (fun c => c.isAlpha || c.isDigit || c = '.' || c = '-')

/-- `[A-Z|a-z]` — the source's class literally also accepts `|`. -/
def emailTldCls : RE := .chr (fun c => c.isAlpha || c = '|')

/-- `email_pattern`: `\b[A-Za-z0-9._%+-]+@[A-Za-z0-9.-]+\.[A-Z|a-z]{2,}\b`,
with the unbounded repetitions bounded by the text length `n`. -/
def email_pattern (n : Nat) : RE :=
  seqL [reB, reRep emailLocalCls 1 n, lit '@', reRep emailDomainCls 1 n,
    lit '.', reRep emailTldCls 2 n, reB]

/-- `\s*` bounded by the text length. -/
def reS0 (n : Nat) : RE := reRep reS 0 n

/-- The date-separator class accepting a dash or a slash. -/
def sepDMY : RE := .chr (fun c => c = '-' || c = '/')

/-- The month-name alternation of the first DOB pattern. -/
def monthRE : RE :=
  altL (["January", "February", "March", "April", "May", "June", "July",
    "August", "September", "October", "November", "December"].map wordCI)

/-- The cue alternation
`(?:date\s+of\s+birth|DOB|d\.o\.b\.?|born\s+on|birthday)` (IGNORECASE). -/
def dobCue (n : Nat) : RE :=
  altL [
    seqL [wordCI "date", reS1 n, wordCI "of", reS1 n, wordCI "birth"],
    wordCI "DOB",
    seqL [litCI 'd', lit '.', litCI 'o', lit '.', litCI 'b', reOpt (lit '.')],
    seqL [wordCI "born", reS1 n, wordCI "on"],
    wordCI "birthday"]

/-- The date alternation of the first DOB pattern. -/
def dobDate (n : Nat) : RE :=
  altL [
    seqL [reRep reD 1 2, sepDMY, reRep reD 1 2, sepDMY, reRep reD 2 4],
    seqL [monthRE, reS1 n, reRep reD 1 2, reOpt (lit ','), reS1 n, reRepExact reD 4],
    seqL [reRep reD 1 2, reS1 n, monthRE, reS1 n, reRepExact reD 4]]

/-- First DOB pattern: cue, `\s*`, optional `(?:is\s+|:\s*)`, then a date. -/
def dob_pattern1 (n : Nat) : RE :=
  seqL [dobCue n, reS0 n,
    reOpt (.alt (.seq (wordCI "is") (reS1 n)) (.seq (lit ':') (reS0 n))),
    dobDate n]

/-- Second DOB pattern: `\b(\d{2}/\d{2}/\d{4})\b`. -/
def dob_pattern2 : RE :=
  seqL [reB, reRepExact reD 2, lit '/', reRepExact reD 2, lit '/',
    reRepExact reD 4, reB]

/-- Third DOB pattern (ISO): `\b(\d{4}-\d{2}-\d{2})\b`. -/
def dob_pattern3 : RE :=
  seqL [reB, reRepExact reD 4, lit '-', reRepExact reD 2, lit '-',
    reRepExact reD 2, reB]

/-- `credit_card_pattern`: `\b(?:\d{4}[-\s]?){3,4}\d{1,4}\b`. -/
def credit_card_pattern : RE :=
  seqL [reB, reRep (.seq (reRepExact reD 4) (reOpt sepSD)) 3 4, reRep reD 1 4, reB]

/-- `tfn_pattern`: `\b\d{3}[-\s]?\d{3}[-\s]?\d{3}\b`.  Compiled by
`_compile_patterns` but never applied by `detect_pii`. -/
def tfn_pattern : RE :=
  seqL [reB, reRepExact reD 3, reOpt sepSD, reRepExact reD 3, reOpt sepSD,
    reRepExact reD 3, reB]

/-- Any ASCII letter: `[A-Z]` or `[a-z]` under IGNORECASE. -/
def alphaCI : RE := .chr Char.isAlpha

/-- `[A-Z][a-z]+` under IGNORECASE. -/
def capWordCI (n : Nat) : RE := .seq alphaCI (reRep alphaCI 1 n)

/-- The street-type alternation of `address_pattern`, in source order. -/
def streetTypes : List String :=
  ["Street", "St", "Road", "Rd", "Avenue", "Ave", "Drive", "Dr", "Lane", "Ln",
   "Court", "Ct", "Place", "Pl", "Crescent", "Cres", "Boulevard", "Blvd",
   "Way", "Close", "Circuit"]

/-- `address_pattern`:
`\b\d+\s+[A-Z][a-z]+(?:\s+[A-Z][a-z]+)*\s+(?:Street|…|Circuit)\b` (IGNORECASE). -/
def address_pattern (n : Nat) : RE :=
  seqL [reB, reRep reD 1 n, reS1 n, capWordCI n,
    reRep (.seq (reS1 n) (capWordCI n)) 0 n,
    reS1 n, altL (streetTypes.map wordCI), reB]

/-- The cue alternation of the first name pattern (IGNORECASE):
`(?:my\s+name\s+is|this\s+is|I\'?m|I\s+am|name\'?s|speaking\s+is|patient\s+name:?)`. -/
def nameCue (n : Nat) : RE :=
  altL [
    seqL [wordCI "my", reS1 n, wordCI "name", reS1 n, wordCI "is"],
    seqL [wordCI "this", reS1 n, wordCI "is"],
    seqL [litCI 'I', reOpt (lit '\''), litCI 'm'],
    seqL [litCI 'I', reS1 n, wordCI "am"],
    seqL [wordCI "name", reOpt (lit '\''), litCI 's'],
    seqL [wordCI "speaking", reS1 n, wordCI "is"],
    seqL [wordCI "patient", reS1 n, wordCI "name", reOpt (lit ':')]]

/-- First name pattern: cue, `\s+`, `([A-Z][a-z]+(?:\s+[A-Z][a-z]+){1,3})`
(IGNORECASE). -/
def name_pattern1 (n : Nat) : RE :=
  seqL [nameCue n, reS1 n, capWordCI n, reRep (.seq (reS1 n) (capWordCI n)) 1 3]

/-- `(?:Mrs?\.?|Ms\.?|Dr\.?|Miss)` (case-sensitive). -/
def titleRE : RE :=
  altL [
    seqL [lit 'M', lit 'r', reOpt (lit 's'), reOpt (lit '.')],
    seqL [lit 'M', lit 's', reOpt (lit '.')],
    seqL [lit 'D', lit 'r', reOpt (lit '.')],
    word "Miss"]

/-- `[A-Z][a-z]+`, case-sensitive. -/
def capWordCS (n : Nat) : RE :=
  .seq (.chr Char.isUpper) (reRep (.chr Char.isLower) 1 n)

/-- Second name pattern:
`\b(?:Mrs?\.?|Ms\.?|Dr\.?|Miss)\s+([A-Z][a-z]+(?:\s+[A-Z][a-z]+){0,2})\b`. -/
def name_pattern2 (n : Nat) : RE :=
  seqL [reB, titleRE, reS1 n, capWordCS n,
    reRep (.seq (reS1 n) (capWordCS n)) 0 2, reB]

/-!
## `PIIMatch`, the per-kind redaction helpers and `detect_pii`
-/

/-- `PIIType` (`pii_filter.py`). -/
inductive PIIType : Type where
  | MEDICARE | PHONE | EMAIL | DOB | NAME | ADDRESS | CREDIT_CARD | TFN
  | HEALTH_ID | SSN
deriving DecidableEq, Repr

/-- `PIIMatch` (`pii_filter.py`). -/
structure PIIMatch where
  pii_type : PIIType
  original_value : List Char
  start_pos : Nat
  end_pos : Nat
  redacted_value : List Char
deriving DecidableEq, Repr

/-- The filter's fixed redaction glyph (`redaction_char`). -/
def redaction_char : Char := '█'

/-- `re.sub(r'\D', '', value)`. -/
def digitsOf (l : List Char) : List Char := l.filter Char.isDigit

/-- Python `s[-n:]` for `n > 0`. -/
def lastN (n : Nat) (l : List Char) : List Char := l.drop (l.length - n)

/-- `_redact_medicare`: keep the first 2 digits, one glyph per remaining digit. -/
def redact_medicare (value : List Char) : List Char :=
  let digits := digitsOf value
  digits.take 2 ++ List.replicate (digits.length - 2) redaction_char

/-- `_redact_phone`: one glyph per digit except the last 3, kept verbatim. -/
def redact_phone (value : List Char) : List Char :=
  let digits := digitsOf value
  List.replicate (digits.length - 3) redaction_char ++ lastN 3 digits

/-- `_redact_email`: keep the first local-part character and the domain.
(`local[0]` in the source presupposes a nonempty local part, which the email
pattern guarantees; `take 1` is its total counterpart.) -/
def redact_email (value : List Char) : List Char :=
  if '@' ∈ value then
    let lpart := value.takeWhile (fun c => c ≠ '@')
    let dpart := (value.dropWhile (fun c => c ≠ '@')).tail
    lpart.take 1 ++ List.replicate (lpart.length - 1) redaction_char ++ '@' :: dpart
  else
    List.replicate value.length redaction_char

/-- Prefix `(date\s+of\s+birth\s*(?:is\s*)?)` of `_redact_dob` (IGNORECASE). -/
def dobRedPre1 (n : Nat) : RE :=
  seqL [wordCI "date", reS1 n, wordCI "of", reS1 n, wordCI "birth", reS0 n,
    reOpt (.seq (wordCI "is") (reS0 n))]

/-- Prefix `(DOB\s*:?\s*)` of `_redact_dob` (IGNORECASE). -/
def dobRedPre2 (n : Nat) : RE :=
  seqL [wordCI "DOB", reS0 n, reOpt (lit ':'), reS0 n]

/-- Prefix `(born\s+on\s*)` of `_redact_dob` (IGNORECASE). -/
def dobRedPre3 (n : Nat) : RE :=
  seqL [wordCI "born", reS1 n, wordCI "on", reS0 n]

/-- `_redact_dob`: if one of the three cue prefixes matches at the start
(tried in source order), keep it and replace the remainder of the value by
`[DOB REDACTED]` (the effect of `re.sub(prefix + r'.*', r'\1[DOB REDACTED]')`
on the single-line values the DOB patterns produce); otherwise replace the
whole value. -/
def redact_dob (value : List Char) : List Char :=
  let n := value.length
  match (run (dobRedPre1 n) none value).head? with
  | some r => r.pre ++ str "[DOB REDACTED]"
  | none =>
    match (run (dobRedPre2 n) none value).head? with
    | some r => r.pre ++ str "[DOB REDACTED]"
    | none =>
      match (run (dobRedPre3 n) none value).head? with
      | some r => r.pre ++ str "[DOB REDACTED]"
      | none => str "[DOB REDACTED]"

/-- `_redact_credit_card`: one glyph per digit except the last 4. -/
def redact_credit_card (value : List Char) : List Char :=
  let digits := digitsOf value
  List.replicate (digits.length - 4) redaction_char ++ lastN 4 digits

/-- `(?:Mrs?\.?|Ms\.?|Dr\.?|Miss)` under IGNORECASE, as `_redact_name`
applies it. -/
def titleCI : RE :=
  altL [
    seqL [litCI 'M', litCI 'r', reOpt (litCI 's'), reOpt (lit '.')],
    seqL [litCI 'M', litCI 's', reOpt (lit '.')],
    seqL [litCI 'D', litCI 'r', reOpt (lit '.')],
    wordCI "Miss"]

/-- The prefix patterns of `_redact_name`, in source order (all IGNORECASE,
each ending in `\s+`). -/
def nameRedPrefixes (n : Nat) : List RE :=
  [seqL [wordCI "my", reS1 n, wordCI "name", reS1 n, wordCI "is", reS1 n],
   seqL [wordCI "this", reS1 n, wordCI "is", reS1 n],
   seqL [litCI 'I', reOpt (lit '\''), litCI 'm', reS1 n],
   seqL [litCI 'I', reS1 n, wordCI "am", reS1 n],
   seqL [wordCI "name", reOpt (lit '\''), litCI 's', reS1 n],
   .seq titleCI (reS1 n)]

/-- `_redact_name`: keep the first matching cue prefix, replace the rest by
`[NAME REDACTED]`. -/
def redact_name (value : List Char) : List Char :=
  match (nameRedPrefixes value.length).findSome?
      (fun re => (run re none value).head?) with
  | some r => r.pre ++ str "[NAME REDACTED]"
  | none => str "[NAME REDACTED]"

/-- `_redact_generic`. -/
def redact_generic (value : List Char) (keepLast : Nat) : List Char :=
  if 0 < keepLast then
    List.replicate (value.length - keepLast) redaction_char ++ lastN keepLast value
  else
    List.replicate value.length redaction_char

/-- One detection pass: every `finditer` span of `re` over `text`, wrapped as
a `PIIMatch` of kind `t` with redaction policy `red`. -/
def piiPass (t : PIIType) (red : List Char → List Char) (re : RE)
    (text : List Char) : List PIIMatch :=
  (findIter re 0 none text).map fun m =>
    ⟨t, m.2, m.1, m.1 + m.2.length, red m.2⟩

/-- The candidate matches of `detect_pii` before overlap resolution, in the
order the source appends them (medicare, phone, email, the three DOB
patterns, credit card with its digit-count filter, address, the two name
patterns). -/
def piiCandidates (text : List Char) : List PIIMatch :=
  let n := text.length
  piiPass .MEDICARE redact_medicare medicare_pattern text
    ++ piiPass .PHONE redact_phone phone_pattern text
    ++ piiPass .EMAIL redact_email (email_pattern n) text
    ++ piiPass .DOB redact_dob (dob_pattern1 n) text
    ++ piiPass .DOB redact_dob dob_pattern2 text
    ++ piiPass .DOB redact_dob dob_pattern3 text
    ++ (piiPass .CREDIT_CARD redact_credit_card credit_card_pattern text).filter
        (fun m => 13 ≤ (digitsOf m.original_value).length &&
          (digitsOf m.original_value).length ≤ 19)
    ++ piiPass .ADDRESS (fun v => redact_generic v 0) (address_pattern n) text
    ++ piiPass .NAME redact_name (name_pattern1 n) text
    ++ piiPass .NAME redact_name (name_pattern2 n) text

/-- Stable insertion of `x` into `l` (insertion point: before the first
element `y` with `le x y`). -/
def sInsert (le : α → α → Bool) (x : α) : List α → List α
  | [] => [x]
  | y :: ys => if le x y then x :: y :: ys else y :: sInsert le x ys

/-- Stable insertion sort, modelling Python's stable `sorted`. -/
def isort (le : α → α → Bool) : List α → List α
  | [] => []
  | x :: xs => sInsert le x (isort le xs)

/-- The sort key of `_deduplicate_matches`: start offset ascending, ties by
span length descending (`(m.start_pos, -(m.end_pos - m.start_pos))`). -/
def dedupLe (a b : PIIMatch) : Bool :=
  a.start_pos < b.start_pos ||
    (a.start_pos = b.start_pos &&
      (b.end_pos - b.start_pos) ≤ (a.end_pos - a.start_pos))

/-- The greedy sweep of `_deduplicate_matches`: keep a match only if its
start offset is at or after the end of the last kept match (`last_end`
starts at `-1`). -/
def sweep : Int → List PIIMatch → List PIIMatch
  | _, [] => []
  | lastEnd, m :: ms =>
    if lastEnd ≤ (m.start_pos : Int) then m :: sweep (m.end_pos : Int) ms
    else sweep lastEnd ms

/-- `_deduplicate_matches`. -/
def deduplicate_matches (ms : List PIIMatch) : List PIIMatch :=
  sweep (-1) (isort dedupLe ms)

/-- `detect_pii`: all pattern passes followed by overlap resolution. -/
def detect_pii (text : List Char) : List PIIMatch :=
  deduplicate_matches (piiCandidates text)

/-- `redact`: detect, then rewrite the text from the highest start offset to
the lowest (`sorted(..., key=start_pos, reverse=True)`). -/
def redact (text : List Char) : List Char × List PIIMatch × Bool :=
  let ms := detect_pii text
  if ms.isEmpty then (text, [], true)
  else
    let ordered := isort (fun a b => b.start_pos ≤ a.start_pos) ms
    let redacted := ordered.foldl
      (fun acc m => acc.take m.start_pos ++ m.redacted_value ++ acc.drop m.end_pos)
      text
    (redacted, ms, true)

/-!
## Structural lemmas: sorting, the greedy sweep, and pattern lower bounds
-/

theorem mem_sInsert {le : α → α → Bool} {x a : α} :
    ∀ {l : List α}, a ∈ sInsert le x l ↔ a = x ∨ a ∈ l := by
  intro l
  induction l with
  | nil => simp [sInsert]
  | cons y ys ih =>
    simp only [sInsert]
    split
    · simp
    · simp only [List.mem_cons, ih]
      tauto

theorem mem_isort {le : α → α → Bool} {a : α} :
    ∀ {l : List α}, a ∈ isort le l ↔ a ∈ l := by
  intro l
  induction l with
  | nil => simp [isort]
  | cons x xs ih => simp [isort, mem_sInsert, ih]

theorem sweep_subset {m : PIIMatch} :
    ∀ {l : List PIIMatch} {lastEnd : Int}, m ∈ sweep lastEnd l → m ∈ l := by
  intro l
  induction l with
  | nil => intro lastEnd h; simp [sweep] at h
  | cons x xs ih =>
    intro lastEnd h
    simp only [sweep] at h
    split at h
    · rcases List.mem_cons.mp h with h | h
      · exact h ▸ List.mem_cons_self x xs
      · exact List.mem_cons_of_mem x (ih h)
    · exact List.mem_cons_of_mem x (ih h)

theorem sweep_sound :
    ∀ (l : List PIIMatch) (lastEnd : Int),
    (∀ m ∈ l, m.start_pos < m.end_pos) →
    (∀ m ∈ sweep lastEnd l, lastEnd ≤ (m.start_pos : Int)) ∧
    (sweep lastEnd l).Pairwise (fun a b => a.end_pos ≤ b.start_pos) := by
  intro l
  induction l with
  | nil => intro lastEnd _; simp [sweep]
  | cons x xs ih =>
    intro lastEnd hwf
    have hx : x.start_pos < x.end_pos := hwf x (List.mem_cons_self x xs)
    have hwf' : ∀ m ∈ xs, m.start_pos < m.end_pos :=
      fun m hm => hwf m (List.mem_cons_of_mem x hm)
    simp only [sweep]
    split
    · rename_i hcond
      obtain ⟨ihlb, ihpw⟩ := ih (x.end_pos : Int) hwf'
      constructor
      · intro m hm
        rcases List.mem_cons.mp hm with h | h
        · exact h ▸ hcond
        · have := ihlb m h
          have : (x.end_pos : Int) ≤ (m.start_pos : Int) := this
          omega
      · refine List.pairwise_cons.mpr ⟨?_, ihpw⟩
        intro b hb
        have := ihlb b hb
        omega
    · exact ih lastEnd hwf'

theorem minCons_repExact (a : RE) :
    ∀ k, reMinConsumed (reRepExact a k) = k * reMinConsumed a := by
  intro k
  induction k with
  | zero => simp [reRepExact, reMinConsumed]
  | succ k ih => simp [reRepExact, reMinConsumed, ih]; ring

theorem minCons_upto (a : RE) : ∀ k, reMinConsumed (reUpto a k) = 0 := by
  intro k
  induction k with
  | zero => simp [reUpto, reMinConsumed]
  | succ k ih => simp [reUpto, reMinConsumed, ih]

theorem minCons_rep (a : RE) (lo hi : Nat) :
    reMinConsumed (reRep a lo hi) = lo * reMinConsumed a := by
  simp [reRep, reMinConsumed, minCons_repExact, minCons_upto]

theorem minCons_wordList :
    ∀ l : List Char, reMinConsumed ((l.map litCI).foldr .seq .eps) = l.length := by
  intro l
  induction l with
  | nil => simp [reMinConsumed]
  | cons c cs ih => simp [reMinConsumed, litCI, ih]; omega

theorem minCons_wordCI (s : String) :
    reMinConsumed (wordCI s) = s.toList.length := by
  simpa [wordCI] using minCons_wordList s.toList

theorem one_le_minCons_email (n : Nat) : 1 ≤ reMinConsumed (email_pattern n) := by
  simp only [email_pattern, seqL, List.foldr, reMinConsumed, minCons_rep,
    minCons_repExact, minCons_upto, reB, lit]
  omega

theorem one_le_minCons_dob1 (n : Nat) : 1 ≤ reMinConsumed (dob_pattern1 n) := by
  simp only [dob_pattern1, dobCue, dobDate, monthRE, seqL, altL, reS1, reS0, reS,
    sepDMY, reOpt, litCI, lit, wordCI, List.map, List.foldr, reMinConsumed,
    minCons_rep, minCons_repExact, minCons_upto]
  omega

theorem one_le_minCons_address (n : Nat) : 1 ≤ reMinConsumed (address_pattern n) := by
  simp only [address_pattern, seqL, altL, List.map, List.foldr, reMinConsumed,
    minCons_rep, minCons_repExact, minCons_upto, reS1, reS, reB, reD, capWordCI,
    alphaCI, wordCI]
  omega

theorem one_le_minCons_name1 (n : Nat) : 1 ≤ reMinConsumed (name_pattern1 n) := by
  simp only [name_pattern1, nameCue, seqL, altL, reS1, reS, reOpt, litCI, lit,
    capWordCI, alphaCI, wordCI, List.map, List.foldr, reMinConsumed, minCons_rep,
    minCons_repExact, minCons_upto]
  omega

theorem one_le_minCons_name2 (n : Nat) : 1 ≤ reMinConsumed (name_pattern2 n) := by
  simp only [name_pattern2, seqL, altL, List.map, List.foldr, reMinConsumed,
    minCons_rep, minCons_repExact, minCons_upto, reS1, reS, reB, capWordCS,
    titleRE, lit, reOpt, word]
  omega

theorem piiPass_bounds {t : PIIType} {red : List Char → List Char} {re : RE}
    {text : List Char} (hre : 1 ≤ reMinConsumed re) {m : PIIMatch}
    (hm : m ∈ piiPass t red re text) :
    m.start_pos < m.end_pos ∧ m.end_pos ≤ text.length := by
  simp only [piiPass, List.mem_map] at hm
  obtain ⟨⟨a, pre⟩, hmem, hme⟩ := hm
  obtain ⟨h1, h2, _, _, h5⟩ := findIter_spec hmem
  subst hme
  simp only
  omega

theorem piiCandidates_bounds {text : List Char} {m : PIIMatch}
    (hm : m ∈ piiCandidates text) :
    m.start_pos < m.end_pos ∧ m.end_pos ≤ text.length := by
  simp only [piiCandidates, List.mem_append] at hm
  rcases hm with ((((((((hm | hm) | hm) | hm) | hm) | hm) | hm) | hm) | hm) | hm
  · exact piiPass_bounds (by decide) hm
  · exact piiPass_bounds (by decide) hm
  · exact piiPass_bounds (one_le_minCons_email text.length) hm
  · exact piiPass_bounds (one_le_minCons_dob1 text.length) hm
  · exact piiPass_bounds (by decide) hm
  · exact piiPass_bounds (by decide) hm
  · exact piiPass_bounds (by decide) (List.mem_of_mem_filter hm)
  · exact piiPass_bounds (one_le_minCons_address text.length) hm
  · exact piiPass_bounds (one_le_minCons_name1 text.length) hm
  · exact piiPass_bounds (one_le_minCons_name2 text.length) hm

theorem detect_pii_subset_candidates {text : List Char} {m : PIIMatch}
    (hm : m ∈ detect_pii text) : m ∈ piiCandidates text :=
  mem_isort.mp (sweep_subset hm)

/-- What membership in one detection pass tells us: the match's kind, the
redaction applied to its matched substring, the pattern's digit lower bound,
and that every matched character is accepted by some atom of the pattern. -/
theorem piiPass_elim {t : PIIType} {red : List Char → List Char} {re : RE}
    {text : List Char} {m : PIIMatch} (hm : m ∈ piiPass t red re text) :
    m.pii_type = t ∧ m.redacted_value = red m.original_value ∧
    reMinDigits re ≤ (digitsOf m.original_value).length ∧
    (∀ c ∈ m.original_value, acceptsChar re c = true) := by
  simp only [piiPass, List.mem_map] at hm
  obtain ⟨⟨a, pre⟩, hmem, hme⟩ := hm
  obtain ⟨_, _, h3, h4, _⟩ := findIter_spec hmem
  subst hme
  exact ⟨rfl, rfl, h4, h3⟩

/-!
## Claim C3
-/

/-- **C3.** For every input text, the list returned by `detect_pii` after
overlap resolution satisfies: every retained match has
`0 ≤ start_pos < end_pos ≤ text.length`, and no two retained matches overlap
(each match ends at or before the next begins — `deduplicate_matches` orders
candidates by start offset ascending with ties broken by span length
descending and keeps a candidate only if its start is at or after the end of
the last kept candidate). -/
theorem C3_detect_pii_span_invariant (text : List Char) :
    (∀ m ∈ detect_pii text, m.start_pos < m.end_pos ∧ m.end_pos ≤ text.length) ∧
    (detect_pii text).Pairwise (fun a b => a.end_pos ≤ b.start_pos) := by
  refine ⟨fun m hm => piiCandidates_bounds (detect_pii_subset_candidates hm), ?_⟩
  have hwf : ∀ m ∈ isort dedupLe (piiCandidates text), m.start_pos < m.end_pos :=
    fun m hm => (piiCandidates_bounds (mem_isort.mp hm)).1
  exact (sweep_sound (isort dedupLe (piiCandidates text)) (-1) hwf).2

/-- Witness for C3 at a transcript holding a Medicare number and a phone
number. -/
theorem C3_detect_pii_span_invariant_witness :
    (⟨.MEDICARE, str "2345 67890 1", 0, 12, str "23████████"⟩ : PIIMatch) ∈
      detect_pii (str "2345 67890 1 and 0412 345 678") ∧
    (0 < 12 ∧ 12 ≤ (str "2345 67890 1 and 0412 345 678").length) ∧
    (detect_pii (str "2345 67890 1 and 0412 345 678")).Pairwise
      (fun a b => a.end_pos ≤ b.start_pos) := by
  have h := C3_detect_pii_span_invariant (str "2345 67890 1 and 0412 345 678")
  have hmem :
      (⟨.MEDICARE, str "2345 67890 1", 0, 12, str "23████████"⟩ : PIIMatch) ∈
        detect_pii (str "2345 67890 1 and 0412 345 678") := by decide
  exact ⟨hmem, h.1 _ hmem, h.2⟩

/-!
## Claim C4
-/

/-- **C4.** Every detected Medicare (health-identifier) match is redacted to
exactly its first 2 digits followed by one glyph per remaining digit (and has
at least 10 digits, so at least 8 glyphs); every detected phone match is
redacted to one glyph per digit except the final 3 digits, which appear
verbatim at the end (and has at least 3 digits). -/
theorem C4_medicare_phone_redaction_policy (text : List Char) (m : PIIMatch)
    (hm : m ∈ detect_pii text) :
    (m.pii_type = .MEDICARE →
      m.redacted_value =
        (digitsOf m.original_value).take 2 ++
          List.replicate ((digitsOf m.original_value).length - 2) redaction_char ∧
      10 ≤ (digitsOf m.original_value).length) ∧
    (m.pii_type = .PHONE →
      m.redacted_value =
        List.replicate ((digitsOf m.original_value).length - 3) redaction_char ++
          lastN 3 (digitsOf m.original_value) ∧
      3 ≤ (digitsOf m.original_value).length) := by
  have hc := detect_pii_subset_candidates hm
  simp only [piiCandidates, List.mem_append] at hc
  rcases hc with ((((((((hc | hc) | hc) | hc) | hc) | hc) | hc) | hc) | hc) | hc
  · -- Medicare pass
    obtain ⟨ht, hr, hd, _⟩ := piiPass_elim hc
    refine ⟨fun _ => ⟨by rw [hr]; rfl, ?_⟩, fun hp => absurd (ht ▸ hp) (by simp)⟩
    calc 10 = reMinDigits medicare_pattern := by decide
    _ ≤ (digitsOf m.original_value).length := hd
  · -- phone pass
    obtain ⟨ht, hr, hd, _⟩ := piiPass_elim hc
    refine ⟨fun hp => absurd (ht ▸ hp) (by simp), fun _ => ⟨by rw [hr]; rfl, ?_⟩⟩
    calc 3 ≤ reMinDigits phone_pattern := by decide
    _ ≤ (digitsOf m.original_value).length := hd
  · obtain ⟨ht, _, _, _⟩ := piiPass_elim hc
    exact ⟨fun hp => absurd (ht ▸ hp) (by simp), fun hp => absurd (ht ▸ hp) (by simp)⟩
  · obtain ⟨ht, _, _, _⟩ := piiPass_elim hc
    exact ⟨fun hp => absurd (ht ▸ hp) (by simp), fun hp => absurd (ht ▸ hp) (by simp)⟩
  · obtain ⟨ht, _, _, _⟩ := piiPass_elim hc
    exact ⟨fun hp => absurd (ht ▸ hp) (by simp), fun hp => absurd (ht ▸ hp) (by simp)⟩
  · obtain ⟨ht, _, _, _⟩ := piiPass_elim hc
    exact ⟨fun hp => absurd (ht ▸ hp) (by simp), fun hp => absurd (ht ▸ hp) (by simp)⟩
  · obtain ⟨ht, _, _, _⟩ := piiPass_elim (List.mem_of_mem_filter hc)
    exact ⟨fun hp => absurd (ht ▸ hp) (by simp), fun hp => absurd (ht ▸ hp) (by simp)⟩
  · obtain ⟨ht, _, _, _⟩ := piiPass_elim hc
    exact ⟨fun hp => absurd (ht ▸ hp) (by simp), fun hp => absurd (ht ▸ hp) (by simp)⟩
  · obtain ⟨ht, _, _, _⟩ := piiPass_elim hc
    exact ⟨fun hp => absurd (ht ▸ hp) (by simp), fun hp => absurd (ht ▸ hp) (by simp)⟩
  · obtain ⟨ht, _, _, _⟩ := piiPass_elim hc
    exact ⟨fun hp => absurd (ht ▸ hp) (by simp), fun hp => absurd (ht ▸ hp) (by simp)⟩

/-- Witness for C4 at the Medicare and phone matches of one transcript. -/
theorem C4_medicare_phone_redaction_policy_witness :
    (str "23████████" =
      (digitsOf (str "2345 67890 1")).take 2 ++
        List.replicate ((digitsOf (str "2345 67890 1")).length - 2) redaction_char ∧
      10 ≤ (digitsOf (str "2345 67890 1")).length) ∧
    (str "███████678" =
      List.replicate ((digitsOf (str "0412 345 678")).length - 3) redaction_char ++
        lastN 3 (digitsOf (str "0412 345 678")) ∧
      3 ≤ (digitsOf (str "0412 345 678")).length) := by
  have h1 := C4_medicare_phone_redaction_policy (str "2345 67890 1 and 0412 345 678")
    ⟨.MEDICARE, str "2345 67890 1", 0, 12, str "23████████"⟩ (by decide)
  have h2 := C4_medicare_phone_redaction_policy (str "2345 67890 1 and 0412 345 678")
    ⟨.PHONE, str "0412 345 678", 17, 29, str "███████678"⟩ (by decide)
  exact ⟨h1.1 rfl, h2.2 rfl⟩

/-!
## Claim C2
-/

/-- **C2** (code bug in the source): `detect_pii` never yields a
tax-file-number match — `tfn_pattern` is compiled by `_compile_patterns` but
no pass in `detect_pii` applies it.  On a text whose only sensitive content
is a TFN (9 digits grouped 3+3+3), detection returns no match at all and
`redact` returns the text unchanged, leaving the TFN in clear text, contrary
to the claim (and to the module's own docstring). -/
theorem C2_tfn_never_detected :
    detect_pii (str "My TFN is 123 456 789") = [] ∧
    (redact (str "My TFN is 123 456 789")).1 = str "My TFN is 123 456 789" ∧
    (digitsOf (str "My TFN is 123 456 789")).length = 9 := by
  refine ⟨by decide, by decide, by decide⟩

/-!
## `smart_routing.py`: Medicare extraction, mentions, and the routing cascade
-/

/-- Whether `needle` is a prefix of `hay`. -/
def startsWithL : List Char → List Char → Bool
  | [], _ => true
  | _ :: _, [] => false
  | a :: as, b :: bs => a = b && startsWithL as bs

/-- Python's `needle in hay` substring test. -/
def containsSub (needle : List Char) : List Char → Bool
  | [] => needle.isEmpty
  | c :: rest => startsWithL needle (c :: rest) || containsSub needle rest

/-- One clinic location of `CLINIC_LOCATIONS`. -/
structure LocationCfg where
  id : List Char
  name : List Char
  keywords : List (List Char)
deriving DecidableEq, Repr

/-- `CLINIC_LOCATIONS`. -/
def CLINIC_LOCATIONS : List LocationCfg :=
  [⟨str "harbour", str "Harbour Medical Centre",
     [str "harbour", str "harbor", str "waterfront", str "bay"]⟩,
   ⟨str "sunset", str "Sunset Family Practice",
     [str "sunset", str "west", str "evening"]⟩,
   ⟨str "central", str "Central City Clinic",
     [str "central", str "city", str "downtown", str "cbd"]⟩,
   ⟨str "northside", str "Northside Health Hub",
     [str "north", str "northside", str "upper"]⟩]

/-- One doctor of `KNOWN_DOCTORS`. -/
structure DoctorCfg where
  name : List Char
  location : List Char
  aliases : List (List Char)
deriving DecidableEq, Repr

/-- `KNOWN_DOCTORS`. -/
def KNOWN_DOCTORS : List DoctorCfg :=
  [⟨str "Dr. Sarah Chen", str "harbour", [str "dr chen", str "sarah chen", str "chen"]⟩,
   ⟨str "Dr. Michael Wong", str "sunset", [str "dr wong", str "michael wong", str "wong"]⟩,
   ⟨str "Dr. Emma Thompson", str "central", [str "dr thompson", str "emma thompson", str "thompson"]⟩,
   ⟨str "Dr. James Nguyen", str "northside", [str "dr nguyen", str "james nguyen", str "nguyen"]⟩,
   ⟨str "Dr. Lisa Patel", str "harbour", [str "dr patel", str "lisa patel", str "patel"]⟩]

/-- `PATIENT_LOCATION_HISTORY` (Medicare number → location). -/
def PATIENT_LOCATION_HISTORY : List (List Char × List Char) :=
  [(str "2345678901", str "harbour"),
   (str "3456789012", str "sunset"),
   (str "4567890123", str "central"),
   (str "5678901234", str "northside"),
   (str "6789012345", str "harbour")]

/-- `MedicareResult` (`smart_routing.py`). -/
structure MedicareResult where
  medicare_number : Option (List Char)
  medicare_masked : Option (List Char)
  is_valid : Bool
deriving DecidableEq, Repr

/-- First extraction pattern of `extract_medicare`:
`\b(\d{4})\s*(\d{5})\s*(\d{1,2})\b` (the `\s*` bounded by the text length). -/
def medicareSpacedP (n : Nat) : RE :=
  seqL [reB, reRepExact reD 4, reS0 n, reRepExact reD 5, reS0 n, reRep reD 1 2, reB]

/-- Second extraction pattern of `extract_medicare`: `\b(\d{10,11})\b`. -/
def medicareContigP : RE := seqL [reB, reRep reD 10 11, reB]

/-- `digits[0] in '23456'`. -/
def firstDigitValid : List Char → Bool
  | [] => false
  | c :: _ => c = '2' || c = '3' || c = '4' || c = '5' || c = '6'

/-- `_mask_medicare`: `XXXX XXXX X` plus the last 2 digits. -/
def mask_medicare (medicare : List Char) : List Char :=
  if 10 ≤ medicare.length then str "XXXX XXXX X" ++ lastN 2 medicare
  else str "XXXX XXXX XXX"

/-- `extract_medicare`: for each pattern in order, for each `findall` match in
order, join the digit groups (the groups cover every digit of the match) and
return the first candidate of length 10–11 whose first digit is in
`{2,3,4,5,6}`. -/
def extract_medicare (text : List Char) : MedicareResult :=
  let cands :=
    ((findIter (medicareSpacedP text.length) 0 none text).map (fun m => digitsOf m.2))
      ++ ((findIter medicareContigP 0 none text).map (fun m => digitsOf m.2))
  match cands.find?
      (fun d => (10 ≤ d.length && d.length ≤ 11) && firstDigitValid d) with
  | some d => ⟨some d, some (mask_medicare d), true⟩
  | none => ⟨none, none, false⟩

/-- `extract_location`: first location (in directory order) one of whose
keywords occurs in the lower-cased transcript. -/
def extract_location (text : List Char) : Option (List Char) :=
  let tl := toLowerL text
  CLINIC_LOCATIONS.findSome? fun loc =>
    if loc.keywords.any (fun k => containsSub k tl) then some loc.id else none

/-- `get_location_name`. -/
def get_location_name (locId : List Char) : Option (List Char) :=
  (CLINIC_LOCATIONS.find? (fun loc => loc.id = locId)).map (·.name)

/-- `extract_doctor`: first doctor (in directory order) one of whose aliases
occurs in the lower-cased transcript, with that doctor's home location. -/
def extract_doctor (text : List Char) : Option (List Char) × Option (List Char) :=
  let tl := toLowerL text
  match KNOWN_DOCTORS.findSome? (fun d =>
      if d.aliases.any (fun al => containsSub al tl) then some (d.name, d.location)
      else none) with
  | some (nm, loc) => (some nm, some loc)
  | none => (none, none)

/-- `RoutingResult` (`smart_routing.py`); the confidence is modelled as an
exact rational. -/
structure RoutingResult where
  assigned_location : Option (List Char)
  location_name : Option (List Char)
  confidence : ℚ
  routing_reason : List Char
  mentioned_doctor : Option (List Char)
  mentioned_location : Option (List Char)
deriving DecidableEq, Repr

/-- `route_voicemail`: the four-tier cascade exactly as the source orders it
(explicit location mention, doctor mention, patient history via a truthy
Medicare number present in the history table, otherwise unassigned with any
doctor mention still reported). -/
def route_voicemail (transcript : List Char)
    (medicare_number : Option (List Char)) : RoutingResult :=
  match extract_location transcript with
  | some mentioned =>
      ⟨some mentioned, get_location_name mentioned, 0.95, str "location_mentioned",
        none, get_location_name mentioned⟩
  | none =>
    let dr := extract_doctor transcript
    match dr.2 with
    | some dloc =>
        ⟨some dloc, get_location_name dloc, 0.85, str "doctor_association",
          dr.1, none⟩
    | none =>
      let hist : Option (List Char) :=
        match medicare_number with
        | some mn => if mn.isEmpty then none else PATIENT_LOCATION_HISTORY.lookup mn
        | none => none
      match hist with
      | some hloc =>
          ⟨some hloc, get_location_name hloc, 0.75, str "patient_history",
            none, none⟩
      | none => ⟨none, none, 0, str "unassigned", dr.1, none⟩

/-!
## `triage_service.py`: phone extraction and display masking
-/

/-- First phone pattern of `_extract_phone_from_text`: `0\d{3}\s?\d{3}\s?\d{3}`. -/
def phoneTriageP1 : RE :=
  seqL [dLit '0', reRepExact reD 3, reOpt reS, reRepExact reD 3, reOpt reS,
    reRepExact reD 3]

/-- Second phone pattern: `\+61\d{9}`. -/
def phoneTriageP2 : RE := seqL [lit '+', dLit '6', dLit '1', reRepExact reD 9]

/-- Third phone pattern: `04\d{8}`. -/
def phoneTriageP3 : RE := seqL [dLit '0', dLit '4', reRepExact reD 8]

/-- `_redact_phone_display`: `None` for a falsy phone, otherwise mask all
digits but the last 4 with `●` (all of them when fewer than 4). -/
def redact_phone_display : Option (List Char) → Option (List Char)
  | none => none
  | some p =>
    if p.isEmpty then none
    else
      let digits := digitsOf p
      if 4 ≤ digits.length then
        some (List.replicate (digits.length - 4) '●' ++ lastN 4 digits)
      else some (List.replicate digits.length '●')

/-- `_extract_phone_from_text`: try the three patterns in order with
`re.search`; normalize the first hit by stripping whitespace (`re.sub('\s')`)
and pair it with its display masking. -/
def extract_phone_from_text (text : List Char) :
    Option (List Char) × Option (List Char) :=
  match [phoneTriageP1, phoneTriageP2, phoneTriageP3].findSome?
      (fun p => (findIter p 0 none text).head?) with
  | some m =>
      let normalized := m.2.filter (fun c => !(isSpaceP c))
      (some normalized, redact_phone_display (some normalized))
  | none => (none, none)

/-!
## `emergency_escalation.py`: the escalation state machine

The module's only mutable state is `self.escalation_log`; it is threaded
explicitly as `EscState`.  `datetime.utcnow()` is threaded as the parameter
`now`.  The stubbed SMS and voice transports print and return `True`.
-/

/-- One entry of `escalation_log`. -/
structure LogEntry where
  kind : List Char
  recipient : List Char
  voicemail_id : List Char
  timestamp : List Char
  status : List Char
deriving DecidableEq, Repr

/-- The state held by `EmergencyEscalation`. -/
structure EscState where
  escalation_log : List LogEntry
deriving DecidableEq, Repr

/-- `__init__`: the log starts empty. -/
def initEscState : EscState := ⟨[]⟩

/-- `self.manager_phone`. -/
def manager_phone : List Char := str "+61400000001"

/-- `EMERGENCY_SCRIPT_EN`. -/
def EMERGENCY_SCRIPT_EN : List Char :=
  str "We have detected that your symptoms may require emergency medical attention.\nPlease hang up immediately and call 000, or proceed to your nearest emergency department.\nClinic staff have been notified of your situation."

/-- `EMERGENCY_SCRIPT_ZH`. -/
def EMERGENCY_SCRIPT_ZH : List Char :=
  str "我們偵測到您的症狀可能需要緊急醫療協助。\n請立即掛斷電話並撥打 000，或前往最近的急診中心。\n診所人員已收到您的通知。"

/-- `EMERGENCY_SCRIPT_BILINGUAL`. -/
def EMERGENCY_SCRIPT_BILINGUAL : List Char :=
  str "[ENGLISH]\n" ++ EMERGENCY_SCRIPT_EN ++ str "\n\n[中文]\n" ++ EMERGENCY_SCRIPT_ZH

/-- `should_escalate`: urgency at least 5, or at least 4 with Emergency intent. -/
def should_escalate (urgency_level : Int) (intent : List Char) : Bool :=
  if 5 ≤ urgency_level then true
  else if 4 ≤ urgency_level ∧ intent = str "Emergency" then true
  else false

/-- `send_sms_to_manager` (simulated): appends an `sms` log entry and always
returns `True`. -/
def send_sms_to_manager (s : EscState) (now voicemail_id : List Char) :
    Bool × EscState :=
  (true, ⟨s.escalation_log ++
    [⟨str "sms", manager_phone, voicemail_id, now, str "sent_simulated"⟩]⟩)

/-- `trigger_voice_alert` (simulated): appends a `voice_alert` log entry and
always returns `True`. -/
def trigger_voice_alert (s : EscState) (now voicemail_id patient_phone : List Char) :
    Bool × EscState :=
  (true, ⟨s.escalation_log ++
    [⟨str "voice_alert", patient_phone, voicemail_id, now, str "sent_simulated"⟩]⟩)

/-- `EscalationResult` (`emergency_escalation.py`). -/
structure EscalationResult where
  escalation_triggered : Bool
  intervention_status : List Char
  timestamp_escalated : Option (List Char)
  emergency_script : Option (List Char)
  sms_sent_to : Option (List Char)
  actions_taken : List (List Char)
deriving DecidableEq, Repr

/-- Python truthiness of an optional string. -/
def optTruthy : Option (List Char) → Bool
  | none => false
  | some s => !s.isEmpty

/-- `process_escalation`: no-op result when `should_escalate` is false;
otherwise notify the manager (always succeeds), voice-alert the patient only
when a phone is available (then always succeeds), and derive
`intervention_status` from the two outcomes. -/
def process_escalation (s : EscState) (now voicemail_id : List Char)
    (urgency_level : Int) (intent summary : List Char)
    (patient_phone : Option (List Char)) : EscalationResult × EscState :=
  if should_escalate urgency_level intent then
    let smsr := send_sms_to_manager s now voicemail_id
    let sms_sent := smsr.1
    let actions1 : List (List Char) :=
      if sms_sent then [str "SMS_Alert_Sent_To_Manager"] else []
    let vr : Bool × EscState :=
      match patient_phone with
      | some p => if p.isEmpty then (false, smsr.2)
                  else trigger_voice_alert smsr.2 now voicemail_id p
      | none => (false, smsr.2)
    let voice_sent := vr.1
    let actions := actions1 ++
      (if voice_sent then [str "Voice_Alert_Sent_To_Patient"] else [])
    let status :=
      if voice_sent && sms_sent then str "Voice_Alert_Sent"
      else if sms_sent then str "SMS_Alert_Only"
      else str "Escalation_Failed"
    (⟨true, status, some now, some EMERGENCY_SCRIPT_BILINGUAL, some manager_phone,
      actions⟩, vr.2)
  else
    (⟨false, str "None", none, none, none, []⟩, s)

/-- `EscalationInfo` (`schemas.py`), as `triage` fills it. -/
structure EscalationInfo where
  escalation_triggered : Bool
  emergency_alert_sent : Bool
  intervention_status : List Char
  timestamp_escalated : Option (List Char)
  emergency_script : Option (List Char)
  sms_sent_to : Option (List Char)
  actions_taken : List (List Char)
deriving DecidableEq, Repr

/-- Step 7 of `TriageService.triage`: the escalation machine runs only when
`urgency_level >= 5`; when its result is triggered the record carries an
`EscalationInfo`, otherwise `None`. -/
def triage_escalation_stage (s : EscState) (now voicemail_id : List Char)
    (urgency_level : Int) (intent summary : List Char)
    (callback_number : Option (List Char)) : Option EscalationInfo × EscState :=
  if 5 ≤ urgency_level then
    let pr := process_escalation s now voicemail_id urgency_level intent summary
      callback_number
    (if pr.1.escalation_triggered then
      some ⟨true, true, pr.1.intervention_status, pr.1.timestamp_escalated,
        pr.1.emergency_script, pr.1.sms_sent_to, pr.1.actions_taken⟩
     else none, pr.2)
  else (none, s)

/-!
## Claim C5
-/

/-- The spec's §8 scenario transcript: it contains the digit strings
`2345 67890 1` and `0412 345 678`. -/
def scenarioTranscript : List Char :=
  str "Medicare is 2345 67890 1, call 0412 345 678"

/-- **C5, counterexample.**  On a transcript containing the digit strings
`2345 67890 1` and `0412 345 678`, health-identifier extraction returns
`2345678901` — 10 digits, not the 11-digit `23456789001` the claim states
(`2345 67890 1` holds only 4+5+1 = 10 digits). -/
theorem C5_counterexample :
    containsSub (str "2345 67890 1") scenarioTranscript = true ∧
    containsSub (str "0412 345 678") scenarioTranscript = true ∧
    (extract_medicare scenarioTranscript).medicare_number = some (str "2345678901") ∧
    str "2345678901" ≠ str "23456789001" ∧
    (str "2345678901").length = 10 := by
  refine ⟨by decide, by decide, by decide, by decide, by decide⟩

/-- **C5, amended.**  On the scenario transcript, health-identifier
extraction returns `2345678901` (10 digits) with masked display form
`XXXX XXXX X01`, and phone extraction returns `0412345678` with masked
display form `●●●●●●5678`, whose 3 trailing digits `678` are visible. -/
theorem C5_scenario_extraction :
    (extract_medicare scenarioTranscript).medicare_number = some (str "2345678901") ∧
    (str "2345678901").length = 10 ∧
    (extract_medicare scenarioTranscript).medicare_masked = some (str "XXXX XXXX X01") ∧
    extract_phone_from_text scenarioTranscript =
      (some (str "0412345678"), some (str "●●●●●●5678")) ∧
    lastN 3 (str "●●●●●●5678") = str "678" := by
  refine ⟨by decide, by decide, by decide, by decide, by decide⟩

/-!
## Claim C6
-/

/-- The four-tier cascade as the spec words it (§4.3): an explicit site
mention yields that site at confidence 0.95; otherwise a clinician mention
yields the clinician's home site at 0.85; otherwise a truthy supplied
health-identifier number found in the patient-history table yields that site
at 0.75; otherwise no site is assigned, confidence 0.0, with any detected
clinician mention still reported. -/
def routeCascadeSpec (transcript : List Char)
    (medicare_number : Option (List Char)) : RoutingResult :=
  match extract_location transcript with
  | some site =>
      ⟨some site, get_location_name site, 0.95, str "location_mentioned",
        none, get_location_name site⟩
  | none =>
    match (extract_doctor transcript).2 with
    | some home =>
        ⟨some home, get_location_name home, 0.85, str "doctor_association",
          (extract_doctor transcript).1, none⟩
    | none =>
      match (match medicare_number with
             | some mn => if mn.isEmpty then none
                          else PATIENT_LOCATION_HISTORY.lookup mn
             | none => none) with
      | some previous =>
          ⟨some previous, get_location_name previous, 0.75, str "patient_history",
            none, none⟩
      | none => ⟨none, none, 0, str "unassigned", (extract_doctor transcript).1, none⟩

/-- The fixed confidence tier each routing reason carries. -/
def confidence_for_reason (reason : List Char) : ℚ :=
  if reason = str "location_mentioned" then 0.95
  else if reason = str "doctor_association" then 0.85
  else if reason = str "patient_history" then 0.75
  else 0

/-- **C6.** `route_voicemail` is exactly the short-circuiting 4-tier cascade
of the spec (refinement of `routeCascadeSpec`), its confidence is determined
solely by its reason via the fixed tier table, and the confidence is always
one of 0.95, 0.85, 0.75, 0. -/
theorem C6_routing_cascade (transcript : List Char)
    (medicare_number : Option (List Char)) :
    route_voicemail transcript medicare_number =
      routeCascadeSpec transcript medicare_number ∧
    (route_voicemail transcript medicare_number).confidence =
      confidence_for_reason
        (route_voicemail transcript medicare_number).routing_reason ∧
    ((route_voicemail transcript medicare_number).confidence = 0.95 ∨
     (route_voicemail transcript medicare_number).confidence = 0.85 ∨
     (route_voicemail transcript medicare_number).confidence = 0.75 ∨
     (route_voicemail transcript medicare_number).confidence = 0) := by
  rcases hl : extract_location transcript with _ | site
  · rcases hd : extract_doctor transcript with ⟨dn, dloc⟩
    rcases dloc with _ | home
    · rcases medicare_number with _ | mn
      · simp only [route_voicemail, routeCascadeSpec, hl, hd]
        refine ⟨trivial, ?_, by simp⟩
        rw [confidence_for_reason, if_neg (by decide), if_neg (by decide),
          if_neg (by decide)]
      · by_cases hmn : mn.isEmpty
        · simp only [route_voicemail, routeCascadeSpec, hl, hd, hmn, if_pos]
          refine ⟨trivial, ?_, by simp⟩
          rw [confidence_for_reason, if_neg (by decide), if_neg (by decide),
            if_neg (by decide)]
        · rcases hist : PATIENT_LOCATION_HISTORY.lookup mn with _ | previous
          · simp only [route_voicemail, routeCascadeSpec, hl, hd, hmn, hist,
              if_neg, Bool.false_eq_true, not_false_iff]
            refine ⟨trivial, ?_, by simp⟩
            rw [confidence_for_reason, if_neg (by decide), if_neg (by decide),
              if_neg (by decide)]
          · simp only [route_voicemail, routeCascadeSpec, hl, hd, hmn, hist,
              if_neg, Bool.false_eq_true, not_false_iff]
            refine ⟨trivial, ?_, by simp⟩
            rw [confidence_for_reason, if_neg (by decide), if_neg (by decide),
              if_pos rfl]
    · simp only [route_voicemail, routeCascadeSpec, hl, hd]
      refine ⟨trivial, ?_, by simp⟩
      rw [confidence_for_reason, if_neg (by decide), if_pos rfl]
  · simp only [route_voicemail, routeCascadeSpec, hl]
    refine ⟨trivial, ?_, by simp⟩
    rw [confidence_for_reason, if_pos rfl]

/-!
## Claim C1
-/

/-- **C1, counterexample.**  At clamped urgency 4 with intent `Emergency`
the escalation predicate `should_escalate` holds, yet the pipeline's
escalation stage — which runs the state machine only when
`urgency_level >= 5` — produces no escalation, so the triage record carries
none, contrary to the claimed "if and only if". -/
theorem C1_counterexample :
    should_escalate 4 (str "Emergency") = true ∧
    (triage_escalation_stage initEscState (str "2025-01-01T00:00:00") (str "vm_1")
      4 (str "Emergency") (str "summary") (some (str "0412345678"))).1 = none := by
  refine ⟨by decide, by decide⟩

/-- **C1, amended.**  In the pipeline, a triggered escalation is attached to
the record exactly when the clamped urgency level is at least 5;
`should_escalate` alone would also fire at urgency ≥ 4 with Emergency intent,
but the pipeline gate makes that branch unreachable. -/
theorem C1_pipeline_escalation_iff (s : EscState) (now vid : List Char)
    (urgency_level : Int) (intent summary : List Char)
    (callback : Option (List Char)) :
    ((triage_escalation_stage s now vid urgency_level intent summary
        callback).1).isSome = decide (5 ≤ urgency_level) ∧
    should_escalate urgency_level intent =
      (decide (5 ≤ urgency_level) ||
        (decide (4 ≤ urgency_level) && decide (intent = str "Emergency"))) := by
  constructor
  · by_cases h5 : 5 ≤ urgency_level
    · simp only [triage_escalation_stage, process_escalation, should_escalate,
        if_pos h5, decide_eq_true h5]
      rcases callback with _ | p
      · simp
      · by_cases hp : p.isEmpty <;> simp [hp, trigger_voice_alert]
    · simp [triage_escalation_stage, if_neg h5, h5]
  · by_cases h5 : 5 ≤ urgency_level
    · simp [should_escalate, if_pos h5, h5]
    · by_cases h4 : 4 ≤ urgency_level
      · by_cases hi : intent = str "Emergency"
        · simp [should_escalate, h5, h4, hi]
        · simp [should_escalate, h5, h4, hi]
      · simp [should_escalate, h5, h4]

/-!
## Claim C8
-/

/-- **C8.** Whenever `process_escalation` triggers, the resulting
`intervention_status` is not `None`: it is `Voice_Alert_Sent` exactly when a
(truthy) callback number was available — the manager notification and the
voice alert both succeed —, `SMS_Alert_Only` exactly when there was no
callback number (only the manager notification runs, and it succeeds), and it
is never `Escalation_Failed`, because the stubbed manager notification never
fails. -/
theorem C8_intervention_status (s : EscState) (now vid : List Char)
    (urgency_level : Int) (intent summary : List Char)
    (patient_phone : Option (List Char))
    (h : should_escalate urgency_level intent = true) :
    ((process_escalation s now vid urgency_level intent summary
        patient_phone).1.escalation_triggered = true) ∧
    (process_escalation s now vid urgency_level intent summary
        patient_phone).1.intervention_status ≠ str "None" ∧
    ((process_escalation s now vid urgency_level intent summary
        patient_phone).1.intervention_status = str "Voice_Alert_Sent" ↔
      optTruthy patient_phone = true) ∧
    ((process_escalation s now vid urgency_level intent summary
        patient_phone).1.intervention_status = str "SMS_Alert_Only" ↔
      optTruthy patient_phone = false) ∧
    (process_escalation s now vid urgency_level intent summary
        patient_phone).1.intervention_status ≠ str "Escalation_Failed" := by
  rcases patient_phone with _ | p
  · have htrig : (process_escalation s now vid urgency_level intent summary
        none).1.escalation_triggered = true := by
      simp [process_escalation, h, send_sms_to_manager]
    have hstat : (process_escalation s now vid urgency_level intent summary
        none).1.intervention_status = str "SMS_Alert_Only" := by
      simp [process_escalation, h, send_sms_to_manager]
    refine ⟨htrig, ?_, ?_, ?_, ?_⟩ <;> rw [hstat] <;> decide
  · by_cases hp : p.isEmpty
    · have htrig : (process_escalation s now vid urgency_level intent summary
          (some p)).1.escalation_triggered = true := by
        simp [process_escalation, h, hp, send_sms_to_manager]
      have hstat : (process_escalation s now vid urgency_level intent summary
          (some p)).1.intervention_status = str "SMS_Alert_Only" := by
        simp [process_escalation, h, hp, send_sms_to_manager]
      have hot : optTruthy (some p) = false := by simp [optTruthy, hp]
      refine ⟨htrig, ?_, ?_, ?_, ?_⟩ <;> rw [hstat] <;> (try rw [hot]) <;> decide
    · have htrig : (process_escalation s now vid urgency_level intent summary
          (some p)).1.escalation_triggered = true := by
        simp [process_escalation, h, hp, send_sms_to_manager, trigger_voice_alert]
      have hstat : (process_escalation s now vid urgency_level intent summary
          (some p)).1.intervention_status = str "Voice_Alert_Sent" := by
        simp [process_escalation, h, hp, send_sms_to_manager, trigger_voice_alert]
      have hot : optTruthy (some p) = true := by simp [optTruthy, hp]
      refine ⟨htrig, ?_, ?_, ?_, ?_⟩ <;> rw [hstat] <;> (try rw [hot]) <;> decide

/-- Witness for C8 at urgency 5 with a callback number present. -/
theorem C8_intervention_status_witness :
    should_escalate 5 (str "Emergency") = true ∧
    ((process_escalation initEscState (str "T0") (str "vm_1") 5 (str "Emergency")
        (str "chest pain") (some (str "0412345678"))).1.intervention_status =
          str "Voice_Alert_Sent" ↔
      optTruthy (some (str "0412345678")) = true) := by
  have h := C8_intervention_status initEscState (str "T0") (str "vm_1") 5
    (str "Emergency") (str "chest pain") (some (str "0412345678")) (by decide)
  exact ⟨by decide, h.2.2.1⟩

/-!
## Claim C10
-/

/-- **C10, counterexample.**  Processing a transcript that triggers an
escalation mutates service state: the escalation log grows by two entries,
and a second identical call starts from (and produces) a different state than
the first. -/
theorem C10_counterexample :
    ((process_escalation initEscState (str "T0") (str "vm_1") 5 (str "Emergency")
        (str "s") (some (str "0412345678"))).2 ≠ initEscState) ∧
    ((process_escalation
        (process_escalation initEscState (str "T0") (str "vm_1") 5 (str "Emergency")
          (str "s") (some (str "0412345678"))).2
        (str "T0") (str "vm_1") 5 (str "Emergency") (str "s")
        (some (str "0412345678"))).2 ≠
      (process_escalation initEscState (str "T0") (str "vm_1") 5 (str "Emergency")
        (str "s") (some (str "0412345678"))).2) := by
  refine ⟨by decide, by decide⟩

/-- **C10, amended.**  The escalation outcome value is a pure function of the
inputs (independent of the log state), and a non-escalating call leaves the
state unchanged; but an escalating call appends its notification log entries,
so state is preserved only up to the appended audit log. -/
theorem C10_escalation_state_effect (s : EscState) (now vid : List Char)
    (urgency_level : Int) (intent summary : List Char)
    (patient_phone : Option (List Char)) :
    (should_escalate urgency_level intent = false →
      (process_escalation s now vid urgency_level intent summary
        patient_phone).2 = s) ∧
    ((process_escalation s now vid urgency_level intent summary
        patient_phone).1 =
      (process_escalation initEscState now vid urgency_level intent summary
        patient_phone).1) ∧
    ((process_escalation s now vid urgency_level intent summary
        patient_phone).2.escalation_log =
      s.escalation_log ++
        (process_escalation initEscState now vid urgency_level intent summary
          patient_phone).2.escalation_log) := by
  by_cases h : should_escalate urgency_level intent
  · rcases patient_phone with _ | p
    · simp [process_escalation, h, send_sms_to_manager, initEscState]
    · by_cases hp : p.isEmpty <;>
        simp [process_escalation, h, hp, send_sms_to_manager, trigger_voice_alert,
          initEscState]
  · simp [process_escalation, h, initEscState]

/-- Witness for C10's amended statement at a non-escalating call. -/
theorem C10_escalation_state_effect_witness :
    should_escalate 3 (str "Other") = false ∧
    (process_escalation initEscState (str "T0") (str "vm_1") 3 (str "Other")
      (str "s") none).2 = initEscState := by
  have h := C10_escalation_state_effect initEscState (str "T0") (str "vm_1") 3
    (str "Other") (str "s") none
  exact ⟨by decide, h.1 (by decide)⟩

/-!
## Claim C7: `_parse_triage_response` and the §4.6 normalisation rules

`json.loads` is modelled by a recursive-descent parser over the JSON subset
the classifier contract uses (objects, arrays, strings, integer numerals,
booleans, null); like Python's, it rejects trailing data and malformed
values.  Fractional numerals and `\u` escapes are outside the modelled
subset.
-/

/-- A JSON value. -/
inductive Json : Type where
  | null : Json
  | bool (b : Bool) : Json
  | num (n : Int) : Json
  | s (text : List Char) : Json
  | arr (elems : List Json) : Json
  | obj (fields : List (List Char × Json)) : Json

/-- JSON inter-token whitespace. -/
def jsonWs (c : Char) : Bool := c = ' ' || c = '\t' || c = '\n' || c = '\r'

/-- Skip JSON whitespace. -/
def skipWs (l : List Char) : List Char := l.dropWhile jsonWs

/-- Parse the remainder of a JSON string (after the opening quote), handling
the single-character escapes. -/
def parseJString : Nat → List Char → Option (List Char × List Char)
  | 0, _ => none
  | _ + 1, [] => none
  | fuel + 1, c :: rest =>
    if c = '"' then some ([], rest)
    else if c = '\\' then
      match rest with
      | [] => none
      | e :: rest2 =>
        let ec : Option Char :=
          if e = '"' then some '"'
          else if e = '\\' then some '\\'
          else if e = '/' then some '/'
          else if e = 'n' then some '\n'
          else if e = 't' then some '\t'
          else if e = 'r' then some '\r'
          else if e = 'b' then some '\x08'
          else if e = 'f' then some '\x0c'
          else none
        match ec with
        | some d => (parseJString fuel rest2).map (fun pr => (d :: pr.1, pr.2))
        | none => none
    else (parseJString fuel rest).map (fun pr => (c :: pr.1, pr.2))

/-- Parse a JSON integer numeral (rejecting a fractional or exponent part,
which is outside the modelled subset). -/
def parseJInt (l : List Char) : Option (Int × List Char) :=
  let pr : Bool × List Char := match l with
    | '-' :: r => (true, r)
    | _ => (false, l)
  let ds := pr.2.takeWhile Char.isDigit
  let rest := pr.2.dropWhile Char.isDigit
  if ds.isEmpty then none
  else
    let nat : Nat := ds.foldl (fun a c => a * 10 + (c.toNat - '0'.toNat)) 0
    let v : Int := if pr.1 then -(nat : Int) else (nat : Int)
    match rest with
    | c :: _ => if c = '.' || c = 'e' || c = 'E' then none else some (v, rest)
    | [] => some (v, rest)

mutual

/-- Parse one JSON value. -/
def parseJValue : Nat → List Char → Option (Json × List Char)
  | 0, _ => none
  | fuel + 1, l =>
    match skipWs l with
    | [] => none
    | c :: r =>
      if c = '{' then
        (parseJObjFields fuel r).map (fun pr => (Json.obj pr.1, pr.2))
      else if c = '[' then
        (parseJArrElems fuel r).map (fun pr => (Json.arr pr.1, pr.2))
      else if c = '"' then
        (parseJString fuel r).map (fun pr => (Json.s pr.1, pr.2))
      else if startsWithL (str "true") (c :: r) then
        some (Json.bool true, (c :: r).drop 4)
      else if startsWithL (str "false") (c :: r) then
        some (Json.bool false, (c :: r).drop 5)
      else if startsWithL (str "null") (c :: r) then
        some (Json.null, (c :: r).drop 4)
      else if c = '-' || c.isDigit then
        (parseJInt (c :: r)).map (fun pr => (Json.num pr.1, pr.2))
      else none

/-- Parse the fields of a JSON object (just after `{`). -/
def parseJObjFields : Nat → List Char → Option (List (List Char × Json) × List Char)
  | 0, _ => none
  | fuel + 1, l =>
    match skipWs l with
    | '}' :: rest => some ([], rest)
    | other => parseJPairs fuel other

/-- Parse one or more `"key": value` pairs separated by commas, up to the
closing `}`. -/
def parseJPairs : Nat → List Char → Option (List (List Char × Json) × List Char)
  | 0, _ => none
  | fuel + 1, l =>
    match skipWs l with
    | '"' :: r =>
      match parseJString fuel r with
      | none => none
      | some (k, r1) =>
        match skipWs r1 with
        | ':' :: r2 =>
          match parseJValue fuel r2 with
          | none => none
          | some (v, r3) =>
            match skipWs r3 with
            | ',' :: r4 =>
              (parseJPairs fuel r4).map (fun pr => ((k, v) :: pr.1, pr.2))
            | '}' :: r4 => some ([(k, v)], r4)
            | _ => none
        | _ => none
    | _ => none

/-- Parse the elements of a JSON array (just after `[`). -/
def parseJArrElems : Nat → List Char → Option (List Json × List Char)
  | 0, _ => none
  | fuel + 1, l =>
    match skipWs l with
    | ']' :: rest => some ([], rest)
    | other => parseJItems fuel other

/-- Parse one or more array elements separated by commas, up to `]`. -/
def parseJItems : Nat → List Char → Option (List Json × List Char)
  | 0, _ => none
  | fuel + 1, l =>
    match parseJValue fuel l with
    | none => none
    | some (v, r) =>
      match skipWs r with
      | ',' :: r1 => (parseJItems fuel r1).map (fun pr => (v :: pr.1, pr.2))
      | ']' :: r1 => some ([v], r1)
      | _ => none

end

/-- `json.loads`: parse one value and reject trailing data. -/
def json_loads (l : List Char) : Option Json :=
  match parseJValue (l.length + 1) l with
  | some (v, rest) => if (skipWs rest).isEmpty then some v else none
  | none => none

/-- Python `str.strip()`. -/
def stripBoth (l : List Char) : List Char :=
  ((l.dropWhile isSpaceP).reverse.dropWhile isSpaceP).reverse

/-- The suffix after the first occurrence of `needle`, when it occurs
(`hay.split(needle)[1]`'s starting point). -/
def afterFirst (needle : List Char) : List Char → Option (List Char)
  | [] => if needle.isEmpty then some [] else none
  | c :: rest =>
    if startsWithL needle (c :: rest) then some ((c :: rest).drop needle.length)
    else afterFirst needle rest

/-- The prefix before the first occurrence of `needle` (the whole list when
it does not occur): `hay.split(needle)[0]`. -/
def beforeFirst (needle : List Char) : List Char → List Char
  | [] => []
  | c :: rest =>
    if startsWithL needle (c :: rest) then []
    else c :: beforeFirst needle rest

/-- The prefix of `l` up to and including its last `}`. -/
def takeUpToLastBrace (l : List Char) : List Char :=
  (l.reverse.dropWhile (fun c => c ≠ '}')).reverse

/-- The match of `re.search(r'\x7b[\s\S]*\x7d', l)`: from the first `{` that
some `}` follows, through the last `}`. -/
def braceSpan : List Char → Option (List Char)
  | [] => none
  | c :: rest =>
    if c = '{' && rest.contains '}' then some ('{' :: takeUpToLastBrace rest)
    else braceSpan rest

/-- The safe-default record `_parse_triage_response` substitutes when no JSON
object can be found at all. -/
def default_triage_json : Json :=
  .obj [(str "language", .s (str "Unknown")),
        (str "urgency", .obj [(str "level", .num 3),
          (str "reasoning", .s (str "Unable to parse AI response"))]),
        (str "intent", .s (str "Other")),
        (str "summary", .s (str "Message requires manual review")),
        (str "action_item", .s (str "Manual review required - AI processing error"))]

/-- `_parse_triage_response`: strip a markdown code fence, try `json.loads`
on the stripped text; on failure search for a brace-delimited span and
`json.loads` it — a failure of that second `json.loads` is *not* caught and
escapes as a `JSONDecodeError` (modelled as `Except.error`); only when no
brace span exists is the safe default returned. -/
def parse_triage_response (response : List Char) : Except (List Char) Json :=
  let resp :=
    if containsSub (str "```json") response then
      beforeFirst (str "```") ((afterFirst (str "```json") response).getD [])
    else if containsSub (str "```") response then
      beforeFirst (str "```") ((afterFirst (str "```") response).getD [])
    else response
  match json_loads (stripBoth resp) with
  | some v => .ok v
  | none =>
    match braceSpan resp with
    | some sub =>
      match json_loads sub with
      | some v => .ok v
      | none => .error (str "json.decoder.JSONDecodeError")
    | none => .ok default_triage_json

/-- The urgency clamp of `_validate_triage_output`:
`max(1, min(5, level))`. -/
def clamp_urgency (level : Int) : Int := max 1 (min 5 level)

/-- The fixed intent label set of `_validate_triage_output`. -/
def valid_intents : List (List Char) :=
  [str "Booking", str "Prescription", str "Results", str "Emergency",
   str "Billing", str "Referral", str "Other"]

/-- The intent normalisation of `_validate_triage_output`: any label outside
the fixed set becomes `Other`. -/
def normalize_intent (intent : List Char) : List Char :=
  if valid_intents.contains intent then intent else str "Other"

/-- **C7** (code bug in the source): the claim's clamping and
intent-defaulting halves hold, and unparseable output *without* a brace pair
is indeed replaced by the safe default — but a classifier response that
contains braces yet is not valid JSON (e.g. `"{ not json }"`) makes the
*fallback* `json.loads` inside the `except` handler raise a
`JSONDecodeError` that nothing catches, so the pipeline does raise past its
boundary instead of producing the safe-default record. -/
theorem C7_parse_normalisation :
    parse_triage_response (str "{ not json }") =
      .error (str "json.decoder.JSONDecodeError") ∧
    parse_triage_response (str "garbage with no braces") =
      .ok default_triage_json ∧
    json_loads (str "{}") = some (.obj []) ∧
    (∀ level : Int, 1 ≤ clamp_urgency level ∧ clamp_urgency level ≤ 5) ∧
    normalize_intent (str "SomethingElse") = str "Other" ∧
    normalize_intent (str "Emergency") = str "Emergency" := by
  refine ⟨by rfl, by rfl, by rfl, ?_, by decide, by decide⟩
  intro level
  unfold clamp_urgency
  omega

/-!
## Claim C9

The redaction glyph is matched by no atom of any detection pattern, so a
fully-masked span can never be re-detected; but the digits a policy keeps
visible can combine with adjacent text into a fresh detection on a second
pass, which refutes the claim as stated.
-/

theorem accepts_repExact_none {a : RE} {c : Char}
    (ha : acceptsChar a c = false) :
    ∀ k, acceptsChar (reRepExact a k) c = false
  | 0 => by simp [reRepExact, acceptsChar]
  | k + 1 => by
    simp [reRepExact, acceptsChar, ha, accepts_repExact_none ha k]

theorem accepts_upto_none {a : RE} {c : Char}
    (ha : acceptsChar a c = false) :
    ∀ k, acceptsChar (reUpto a k) c = false
  | 0 => by simp [reUpto, acceptsChar]
  | k + 1 => by
    simp [reUpto, acceptsChar, ha, accepts_upto_none ha k]

theorem accepts_rep_none {a : RE} {c : Char} (ha : acceptsChar a c = false)
    (lo hi : Nat) : acceptsChar (reRep a lo hi) c = false := by
  simp [reRep, acceptsChar, accepts_repExact_none ha, accepts_upto_none ha]

theorem noGlyph_email (n : Nat) : acceptsChar (email_pattern n) '█' = false := by
  simp [email_pattern, seqL, List.foldr, acceptsChar, accepts_upto_none,
    accepts_repExact_none, emailLocalCls, emailDomainCls, emailTldCls, lit]

theorem noGlyph_dob1 (n : Nat) : acceptsChar (dob_pattern1 n) '█' = false := by
  simp [dob_pattern1, dobCue, dobDate, monthRE, seqL, altL, List.map,
    List.foldr, reS1, reS0, reS, sepDMY, reOpt, acceptsChar, accepts_upto_none,
    accepts_repExact_none, isSpaceP, lit, litCI, wordCI, reD]

theorem noGlyph_address (n : Nat) : acceptsChar (address_pattern n) '█' = false := by
  simp [address_pattern, seqL, altL, List.map, List.foldr, reS1, reS,
    capWordCI, alphaCI, acceptsChar, accepts_upto_none, accepts_repExact_none,
    isSpaceP, lit, litCI, wordCI, reD, reB]

theorem noGlyph_name1 (n : Nat) : acceptsChar (name_pattern1 n) '█' = false := by
  simp [name_pattern1, nameCue, seqL, altL, List.map, List.foldr, reS1, reS,
    capWordCI, alphaCI, reOpt, acceptsChar, accepts_upto_none,
    accepts_repExact_none, isSpaceP, lit, litCI, wordCI]

theorem noGlyph_name2 (n : Nat) : acceptsChar (name_pattern2 n) '█' = false := by
  simp [name_pattern2, titleRE, seqL, altL, List.map, List.foldr, reS1, reS,
    capWordCS, reOpt, acceptsChar, accepts_upto_none, accepts_repExact_none,
    isSpaceP, lit, litCI, word, reB]

/-- **C9, counterexample.**  For the transcript `0412 345 6781234567`, the
first pass redacts the phone span to `███████678` (span `[0,10)` of the
redacted text); on the redacted output the kept digits `678` merge with the
adjacent digits into a fresh 10-digit Medicare detection starting at offset 7
— inside the previously-redacted span — so a second redaction changes that
span, contradicting the claimed idempotence. -/
theorem C9_counterexample :
    (redact (str "0412 345 6781234567")).1 = str "███████6781234567" ∧
    detect_pii (str "███████6781234567") =
      [⟨.MEDICARE, str "6781234567", 7, 17, str "67████████"⟩] ∧
    ((detect_pii (redact (str "0412 345 6781234567")).1).any
      (fun m => m.start_pos < 10)) = true ∧
    (redact (redact (str "0412 345 6781234567")).1).1 ≠
      (redact (str "0412 345 6781234567")).1 := by
  refine ⟨by decide, by decide, by decide, by decide⟩

/-- **C9, amended.**  No detected PII match ever contains the redaction
glyph, so spans consisting only of filler glyphs (and the bracketed
`[DOB REDACTED]`/`[NAME REDACTED]` tokens, which no pattern matches either)
are never re-detected; idempotence can fail only through the digits a policy
keeps visible, which may merge with adjacent text into a new detection on a
second pass. -/
theorem C9_no_glyph_redetection (text : List Char) (m : PIIMatch)
    (hm : m ∈ detect_pii text) : redaction_char ∉ m.original_value := by
  intro hmem
  rw [show redaction_char = '█' from rfl] at hmem
  have hc := detect_pii_subset_candidates hm
  simp only [piiCandidates, List.mem_append] at hc
  rcases hc with ((((((((hc | hc) | hc) | hc) | hc) | hc) | hc) | hc) | hc) | hc
  · have := (piiPass_elim hc).2.2.2 _ hmem
    rw [show acceptsChar medicare_pattern '█' = false by decide] at this
    exact absurd this (by simp)
  · have := (piiPass_elim hc).2.2.2 _ hmem
    rw [show acceptsChar phone_pattern '█' = false by decide] at this
    exact absurd this (by simp)
  · have := (piiPass_elim hc).2.2.2 _ hmem
    rw [noGlyph_email text.length] at this
    exact absurd this (by simp)
  · have := (piiPass_elim hc).2.2.2 _ hmem
    rw [noGlyph_dob1 text.length] at this
    exact absurd this (by simp)
  · have := (piiPass_elim hc).2.2.2 _ hmem
    rw [show acceptsChar dob_pattern2 '█' = false by decide] at this
    exact absurd this (by simp)
  · have := (piiPass_elim hc).2.2.2 _ hmem
    rw [show acceptsChar dob_pattern3 '█' = false by decide] at this
    exact absurd this (by simp)
  · have := (piiPass_elim (List.mem_of_mem_filter hc)).2.2.2 _ hmem
    rw [show acceptsChar credit_card_pattern '█' = false by decide] at this
    exact absurd this (by simp)
  · have := (piiPass_elim hc).2.2.2 _ hmem
    rw [noGlyph_address text.length] at this
    exact absurd this (by simp)
  · have := (piiPass_elim hc).2.2.2 _ hmem
    rw [noGlyph_name1 text.length] at this
    exact absurd this (by simp)
  · have := (piiPass_elim hc).2.2.2 _ hmem
    rw [noGlyph_name2 text.length] at this
    exact absurd this (by simp)

/-- Witness for C9's amended statement at the phone match of a transcript. -/
theorem C9_no_glyph_redetection_witness :
    redaction_char ∉ str "0412 345 678" :=
  C9_no_glyph_redetection (str "0412 345 678")
    ⟨.PHONE, str "0412 345 678", 0, 12, str "███████678"⟩ (by decide)

end Heidi
